import Mathlib

/-!
Shallow embedding of the excalipur relational-data mapping layer
(`src/model.js`, `src/dao.js`, `src/validations.js`) and proofs about its
change tracking, DAO operations, streaming query accumulator and
transaction protocol.

JavaScript values that flow through the attribute maps are embedded as the
inductive `Val` (undefined, null, numbers, strings, booleans); `===` on
these primitives is decidable equality.  JavaScript objects keyed by
strings (`values.current`, `values.original`, result rows) preserve key
insertion order, so they are embedded as ordered association lists with
unique keys: assignment updates an existing key in place or appends, and
`delete` removes the key.
-/

namespace Excalipur

/-- A JavaScript primitive value as used by the attribute maps. -/
inductive Val : Type where
  | undefined : Val
  | vnull : Val
  | vnum (n : Int) : Val
  | vstr (s : String) : Val
  | vbool (b : Bool) : Val
deriving DecidableEq, Repr

/-- An ordered string-keyed object: association list in insertion order. -/
abbrev AList : Type := List (String × Val)

/-- Property lookup `o[k]`: first binding of the key (`none` models the
key being absent, i.e. `undefined` with `hasOwnProperty` false). -/
def lookupA : AList → String → Option Val
  | [], _ => none
  | (k, v) :: t, q => if k = q then some v else lookupA t q

/-- Membership `o.hasOwnProperty(k)` / `k in o`. -/
def hasKey (o : AList) (k : String) : Bool :=
  (lookupA o k).isSome

/-- Assignment `o[k] = v`: update the existing binding in place, else
append a new one (JS insertion-order semantics). -/
def setA : AList → String → Val → AList
  | [], k, v => [(k, v)]
  | (k₀, v₀) :: t, k, v =>
      if k₀ = k then (k, v) :: t else (k₀, v₀) :: setA t k v

/-- Deletion `delete o[k]`: drop the binding (keys are unique in every object the
source builds, so filtering all occurrences agrees with JS `delete`). -/
def removeA (o : AList) (k : String) : AList :=
  o.filter (fun p => p.1 ≠ k)

theorem lookupA_setA (o : AList) (k q : String) (v : Val) :
    lookupA (setA o k v) q = if k = q then some v else lookupA o q := by
  induction o with
  | nil => simp [setA, lookupA]
  | cons p t ih =>
      obtain ⟨k₀, v₀⟩ := p
      by_cases h0 : k₀ = k
      · subst h0
        by_cases h : k₀ = q <;> simp [setA, lookupA, h]
      · by_cases h : k₀ = q
        · subst h
          have hk : ¬ k = k₀ := fun hq => h0 hq.symm
          simp [setA, lookupA, h0, hk]
        · simp [setA, lookupA, h0, h, ih]

theorem hasKey_setA (o : AList) (k q : String) (v : Val) :
    hasKey (setA o k v) q = (if k = q then true else hasKey o q) := by
  by_cases h : k = q <;> simp [hasKey, lookupA_setA, h]

theorem lookupA_removeA (o : AList) (k q : String) :
    lookupA (removeA o k) q = if k = q then none else lookupA o q := by
  induction o with
  | nil => simp [removeA, lookupA]
  | cons p t ih =>
      obtain ⟨k₀, v₀⟩ := p
      by_cases h0 : k₀ = k
      · subst h0
        by_cases h : k₀ = q
        · subst h
          simpa [removeA, lookupA] using ih
        · simpa [removeA, lookupA, h] using ih
      · by_cases h : k₀ = q
        · subst h
          have hk : ¬ k = k₀ := fun hq => h0 hq.symm
          simp [removeA, lookupA, h0, hk, lookupA]
        · simpa [removeA, lookupA, h0, h] using ih

theorem hasKey_removeA (o : AList) (k q : String) :
    hasKey (removeA o k) q = (if k = q then false else hasKey o q) := by
  by_cases h : k = q <;> simp [hasKey, lookupA_removeA, h]

theorem hasKey_eq_true_iff (o : AList) (k : String) :
    hasKey o k = true ↔ ∃ v, lookupA o k = some v := by
  simp [hasKey, Option.isSome_iff_exists]

/-! ## Attribute schema (`Model` in `src/model.js`) -/

/-- The `default` slot of an attribute descriptor: absent, a factory
function (embedded by the value it produces), or a static value. -/
inductive DefaultSpec : Type where
  | none : DefaultSpec
  | fn (v : Val) : DefaultSpec
  | val (v : Val) : DefaultSpec
deriving DecidableEq, Repr

/-- One attribute descriptor after the `Model` constructor has normalised
it (the constructor writes `attr.column = attrName` when no column alias
is supplied, so `column` is always present here). -/
structure AttrDef : Type where
  column : String
  isId : Bool := false
  dflt : DefaultSpec := .none
  defaultOfType : Option Val := Option.none
deriving DecidableEq, Repr

/-- A model schema: the ordered attribute map and the table name.
Hooks, validations and methods are passed separately to the operations
that consume them. -/
structure Model : Type where
  attrs : List (String × AttrDef)
  table : String
deriving DecidableEq, Repr

/-- First attribute descriptor bound to a name. -/
def lookupAttr (m : Model) (n : String) : Option AttrDef :=
  match m.attrs.find? (fun p => p.1 = n) with
  | some p => some p.2
  | _ => Option.none

/-- Identity slot `self.id`: the `Model` constructor iterates the attributes and assigns
`self.id = attrName` for each descriptor with `id` set, so the last such
attribute wins; `none` models the initial `null`. -/
def modelId (m : Model) : Option String :=
  m.attrs.foldl (fun acc p => if p.2.isId then some p.1 else acc) Option.none

/-- Column resolution `model.attrs[name].column || name` as used by the
DAO builders (the fallback also covers a falsy empty-string column; the
undeclared-name case cannot arise in the source loops and is totalised to
the name itself). -/
def columnOf (m : Model) (n : String) : String :=
  match lookupAttr m n with
  | some ad => if ad.column = "" then n else ad.column
  | _ => n

/-! ## Change-tracking instance state -/

/-- The per-instance `values` record: `current` and `original` maps. -/
structure Values : Type where
  current : AList
  original : AList
deriving DecidableEq, Repr

/-- Method `checkpoint()`: empty the `original` map. -/
def checkpoint (s : Values) : Values :=
  { s with original := [] }

/-- Method `hasChanged(name)`: key presence in `original`. -/
def hasChanged (s : Values) (n : String) : Bool :=
  hasKey s.original n

/-- Method `changed()` with no argument: every key of `original` mapped to its
current value, in `original` insertion order. -/
def changedAll (s : Values) : AList :=
  s.original.map (fun p => (p.1, (lookupA s.current p.1).getD Val.undefined))

/-- Method `attr()` with no argument: shallow copy of `current`. -/
def attrAll (s : Values) : AList :=
  s.current

/-- The `id` aliasing both proxy traps perform first: the literal name
`"id"` redirects to the declared identity attribute when `self.id` is
truthy (non-null and non-empty). -/
def aliasId (m : Model) (n : String) : String :=
  if n = "id" then
    match modelId m with
    | some i => if i = "" then n else i
    | _ => n
  else n

/-- The proxy `set` trap.  A declared attribute write snapshots the
pre-write current value into `original` when no baseline exists yet,
deletes the baseline when the written value `===` it, always updates
`current`, and the trap returns `true` to the caller in every case
(including the undeclared-name no-op).  The two change-event emissions
are observational only and carry no state, so they are not modelled. -/
def msetR (m : Model) (s : Values) (name : String) (v : Val) :
    Values × Bool :=
  let n := aliasId m name
  if hasKey s.current n then
    let orig :=
      if hasKey s.original n = false then
        setA s.original n ((lookupA s.current n).getD Val.undefined)
      else if lookupA s.original n = some v then
        removeA s.original n
      else s.original
    ({ current := setA s.current n v, original := orig }, true)
  else (s, true)

/-- The state part of the `set` trap. -/
def mset (m : Model) (s : Values) (name : String) (v : Val) : Values :=
  (msetR m s name v).1

/-- Result of the proxy `get` trap. -/
inductive GetResult : Type where
  | modelRef : GetResult
  | selfRef : GetResult
  | attrVal (v : Val) : GetResult
  | methodRef (n : String) : GetResult
  | undefined : GetResult
deriving DecidableEq, Repr

/-- The proxy `get` trap: the reflective names `__model__` / `__self__`,
then `id` aliasing, then declared attributes, then method names, and
`undefined` fall-through for everything else.  `methods` is the
instance's method-name set (base methods, model methods, emitter). -/
def mget (m : Model) (s : Values) (methods : List String) (name : String) :
    GetResult :=
  if name = "__model__" then .modelRef
  else if name = "__self__" then .selfRef
  else
    let n := aliasId m name
    if hasKey s.current n then .attrVal ((lookupA s.current n).getD Val.undefined)
    else if methods.contains n then .methodRef n
    else .undefined

/-- A sequence of attribute writes applied through the `set` trap. -/
def applyWrites (m : Model) (s : Values) (ws : List (String × Val)) : Values :=
  ws.foldl (fun s w => mset m s w.1 w.2) s

/-! ### Case analysis of the `set` trap -/

theorem mset_not_current (m : Model) (s : Values) (name : String) (v : Val)
    (hc : hasKey s.current (aliasId m name) = false) :
    mset m s name v = s := by
  simp [mset, msetR, hc]

theorem mset_fresh (m : Model) (s : Values) (name : String) (v : Val)
    (hc : hasKey s.current (aliasId m name) = true)
    (ho : hasKey s.original (aliasId m name) = false) :
    mset m s name v =
      { current := setA s.current (aliasId m name) v,
        original := setA s.original (aliasId m name)
          ((lookupA s.current (aliasId m name)).getD Val.undefined) } := by
  simp [mset, msetR, hc, ho]

theorem mset_revert (m : Model) (s : Values) (name : String) (v : Val)
    (hc : hasKey s.current (aliasId m name) = true)
    (ho : lookupA s.original (aliasId m name) = some v) :
    mset m s name v =
      { current := setA s.current (aliasId m name) v,
        original := removeA s.original (aliasId m name) } := by
  have ho' : hasKey s.original (aliasId m name) = true := by
    simp [hasKey, ho]
  simp [mset, msetR, hc, ho, ho']

theorem mset_rewrite (m : Model) (s : Values) (name : String) (v : Val)
    (hc : hasKey s.current (aliasId m name) = true)
    (ho : hasKey s.original (aliasId m name) = true)
    (hne : lookupA s.original (aliasId m name) ≠ some v) :
    mset m s name v =
      { current := setA s.current (aliasId m name) v,
        original := s.original } := by
  simp [mset, msetR, hc, ho, hne]

/-! ### Baseline invariant of change tracking

Starting from a freshly checkpointed state whose `current` map is `c0`,
every reachable state satisfies: an attribute absent from `original`
still holds its checkpoint value, and an attribute present in `original`
has its checkpoint value recorded there. -/

def Baseline (c0 : AList) (s : Values) : Prop :=
  (∀ n, hasKey s.original n = false → lookupA s.current n = lookupA c0 n)
  ∧ (∀ n, hasKey s.original n = true → lookupA s.original n = lookupA c0 n)

theorem baseline_mset (m : Model) (c0 : AList) (s : Values)
    (name : String) (v : Val) (h : Baseline c0 s) :
    Baseline c0 (mset m s name v) := by
  obtain ⟨h1, h2⟩ := h
  by_cases hc : hasKey s.current (aliasId m name) = true
  · by_cases ho : hasKey s.original (aliasId m name) = true
    · by_cases hv : lookupA s.original (aliasId m name) = some v
      · rw [mset_revert m s name v hc hv]
        constructor
        · intro q hq
          have hq' : hasKey (removeA s.original (aliasId m name)) q
              = false := hq
          rw [hasKey_removeA] at hq'
          show lookupA (setA s.current (aliasId m name) v) q = lookupA c0 q
          rw [lookupA_setA]
          by_cases hqn : aliasId m name = q
          · subst hqn
            rw [if_pos rfl, ← hv]
            exact h2 _ ho
          · rw [if_neg hqn]
            rw [if_neg hqn] at hq'
            exact h1 q hq'
        · intro q hq
          have hq' : hasKey (removeA s.original (aliasId m name)) q
              = true := hq
          rw [hasKey_removeA] at hq'
          show lookupA (removeA s.original (aliasId m name)) q = lookupA c0 q
          by_cases hqn : aliasId m name = q
          · rw [if_pos hqn] at hq'
            simp at hq'
          · rw [if_neg hqn] at hq'
            rw [lookupA_removeA, if_neg hqn]
            exact h2 q hq'
      · rw [mset_rewrite m s name v hc ho hv]
        constructor
        · intro q hq
          have hq' : hasKey s.original q = false := hq
          show lookupA (setA s.current (aliasId m name) v) q = lookupA c0 q
          rw [lookupA_setA]
          by_cases hqn : aliasId m name = q
          · subst hqn
            rw [ho] at hq'
            simp at hq'
          · rw [if_neg hqn]
            exact h1 q hq'
        · intro q hq
          have hq' : hasKey s.original q = true := hq
          show lookupA s.original q = lookupA c0 q
          exact h2 q hq'
    · have ho' : hasKey s.original (aliasId m name) = false := by
        simpa using ho
      rw [mset_fresh m s name v hc ho']
      constructor
      · intro q hq
        have hq' : hasKey (setA s.original (aliasId m name)
            ((lookupA s.current (aliasId m name)).getD Val.undefined)) q
            = false := hq
        rw [hasKey_setA] at hq'
        show lookupA (setA s.current (aliasId m name) v) q = lookupA c0 q
        rw [lookupA_setA]
        by_cases hqn : aliasId m name = q
        · rw [if_pos hqn] at hq'
          simp at hq'
        · rw [if_neg hqn] at hq'
          rw [if_neg hqn]
          exact h1 q hq'
      · intro q hq
        have hq' : hasKey (setA s.original (aliasId m name)
            ((lookupA s.current (aliasId m name)).getD Val.undefined)) q
            = true := hq
        rw [hasKey_setA] at hq'
        show lookupA (setA s.original (aliasId m name)
          ((lookupA s.current (aliasId m name)).getD Val.undefined)) q
          = lookupA c0 q
        rw [lookupA_setA]
        by_cases hqn : aliasId m name = q
        · subst hqn
          rw [if_pos rfl]
          obtain ⟨w, hw⟩ :=
            (hasKey_eq_true_iff s.current (aliasId m name)).mp hc
          rw [hw]
          simp only [Option.getD_some]
          rw [← h1 _ ho', hw]
        · rw [if_neg hqn]
          rw [if_neg hqn] at hq'
          exact h2 q hq'
  · rw [mset_not_current m s name v (by simpa using hc)]
    exact ⟨h1, h2⟩

theorem baseline_applyWrites (m : Model) (c0 : AList) (s : Values)
    (ws : List (String × Val)) (h : Baseline c0 s) :
    Baseline c0 (applyWrites m s ws) := by
  induction ws generalizing s with
  | nil => exact h
  | cons w t ih =>
      simp only [applyWrites, List.foldl_cons]
      exact ih (mset m s w.1 w.2) (baseline_mset m c0 s w.1 w.2 h)

theorem baseline_start (s0 : Values) (h0 : s0.original = []) :
    Baseline s0.current s0 := by
  constructor
  · intro q _
    rfl
  · intro q hq
    rw [h0] at hq
    exact absurd hq (by simp [hasKey, lookupA])

/-! ## Claims about change tracking -/

/-- Concrete one-attribute schema used by several concrete checks. -/
def xModel : Model :=
  { attrs := [("x", { column := "x" })], table := "t" }

/-- A freshly checkpointed instance state of `xModel` with `x = 5`. -/
def xClean : Values :=
  { current := [("x", Val.vnum 5)], original := [] }

/-- Claim C1, counterexample: writing the attribute `x` of a clean
instance to its current checkpointed value 5 marks it changed —
`hasChanged "x"` becomes true even though the current value still equals
the value recorded at the last checkpoint, refuting the claimed
"if and only if". -/
theorem c1_counterexample :
    hasChanged (mset xModel xClean "x" (Val.vnum 5)) "x" = true ∧
    lookupA (mset xModel xClean "x" (Val.vnum 5)).current "x" =
      lookupA xClean.current "x" := by
  decide

/-- Claim C1 (amended): after any sequence of attribute writes on a
freshly checkpointed instance, `hasChanged(n) = false` implies the
current value of `n` equals the value recorded at the last checkpoint
(equivalently, a diverged value forces `hasChanged(n) = true`); the
converse direction fails because a clean attribute written to its own
checkpointed value is snapshotted unconditionally. -/
theorem c1_hasChanged_false_imp_unchanged (m : Model) (s0 : Values)
    (ws : List (String × Val)) (n : String) (h0 : s0.original = [])
    (h : hasChanged (applyWrites m s0 ws) n = false) :
    lookupA (applyWrites m s0 ws).current n = lookupA s0.current n :=
  (baseline_applyWrites m s0.current s0 ws (baseline_start s0 h0)).1 n h

/-- Claim C1 witness: write `x := 7` then `x := 5` (the checkpoint value)
on the clean state; the dirty flag clears and the theorem yields that the
current value equals the checkpointed one. -/
theorem c1_witness :
    xClean.original = [] ∧
    hasChanged (applyWrites xModel xClean
      [("x", Val.vnum 7), ("x", Val.vnum 5)]) "x" = false ∧
    lookupA (applyWrites xModel xClean
      [("x", Val.vnum 7), ("x", Val.vnum 5)]).current "x" =
      lookupA xClean.current "x" :=
  ⟨rfl, by decide,
    c1_hasChanged_false_imp_unchanged xModel xClean
      [("x", Val.vnum 7), ("x", Val.vnum 5)] "x" rfl (by decide)⟩

theorem hasKey_map_fst (l : AList) (f : String → Val) (n : String) :
    hasKey (l.map (fun p => (p.1, f p.1))) n = hasKey l n := by
  induction l with
  | nil => rfl
  | cons p t ih =>
      by_cases h : p.1 = n
      · simp [hasKey, lookupA, h]
      · simpa [hasKey, lookupA, h] using ih

theorem hasKey_changedAll (s : Values) (n : String) :
    hasKey (changedAll s) n = hasKey s.original n := by
  unfold changedAll
  exact hasKey_map_fst s.original
    (fun k => (lookupA s.current k).getD Val.undefined) n

/-- Claim C7: writing a currently dirty declared attribute back to the
baseline value recorded in `original` deletes the baseline entry:
immediately afterwards `hasChanged(name)` is false and the name is
absent from `changed()`. -/
theorem c7_revert_clears_dirty (m : Model) (s : Values) (n : String)
    (v : Val) (hal : aliasId m n = n) (hc : hasKey s.current n = true)
    (ho : lookupA s.original n = some v) :
    hasChanged (mset m s n v) n = false ∧
    hasKey (changedAll (mset m s n v)) n = false := by
  have hstep := mset_revert m s n v (hal.symm ▸ hc) (hal.symm ▸ ho)
  rw [hal] at hstep
  refine ⟨?_, ?_⟩
  · rw [hstep]
    simp [hasChanged, hasKey_removeA]
  · rw [hasKey_changedAll, hstep]
    simp [hasKey_removeA]

/-- A dirty instance state of `xModel`: `x` currently 7, baseline 5. -/
def xDirty : Values :=
  { current := [("x", Val.vnum 7)], original := [("x", Val.vnum 5)] }

/-- Claim C7 witness: the dirty state with `x` currently 7 and baseline 5
is reverted by writing 5. -/
theorem c7_witness :
    aliasId xModel "x" = "x" ∧
    hasKey xDirty.current "x" = true ∧
    lookupA xDirty.original "x" = some (Val.vnum 5) ∧
    hasChanged (mset xModel xDirty "x" (Val.vnum 5)) "x" = false ∧
    hasKey (changedAll (mset xModel xDirty "x" (Val.vnum 5))) "x" = false :=
  ⟨rfl, rfl, rfl,
    (c7_revert_clears_dirty xModel xDirty "x" (Val.vnum 5) rfl rfl rfl).1,
    (c7_revert_clears_dirty xModel xDirty "x" (Val.vnum 5) rfl rfl rfl).2⟩

/-- Claim C9: an undeclared, non-method property (other than the
reflective `__model__` / `__self__` escape hatches) is inert — reading
returns `undefined` (the trap is total, it cannot throw), and writing
reports success (`true`) to the caller while leaving the whole state,
hence `current`, `original` and the dirty set, untouched. -/
theorem c9_undeclared_inert (m : Model) (s : Values)
    (methods : List String) (n : String) (v : Val)
    (h1 : n ≠ "__model__") (h2 : n ≠ "__self__")
    (h3 : hasKey s.current (aliasId m n) = false)
    (h4 : methods.contains (aliasId m n) = false) :
    mget m s methods n = GetResult.undefined ∧ msetR m s n v = (s, true) := by
  have h4' : ¬ (aliasId m n) ∈ methods := by
    simpa using h4
  constructor
  · simp [mget, h1, h2, h3, h4']
  · simp [msetR, h3]

/-- Claim C9 witness: the undeclared name `zap` on the concrete instance,
with the instance method-name set of the source. -/
theorem c9_witness :
    mget xModel xClean
      ["checkpoint", "hasChanged", "attr", "changed", "original",
        "validate", "on", "emit"] "zap" = GetResult.undefined ∧
    msetR xModel xClean "zap" (Val.vnum 1) = (xClean, true) :=
  c9_undeclared_inert xModel xClean
    ["checkpoint", "hasChanged", "attr", "changed", "original",
      "validate", "on", "emit"] "zap" (Val.vnum 1)
    (by decide) (by decide) (by decide) (by decide)

/-! ## Validation (`validate` in `src/model.js`, `ValidationError` in
`src/validations.js`) -/

/-- A validator with its extra arguments already bound: it maps the
attribute's current value to the `(pass, message)` pair the source reads
as `res[0]` / `res[1]`. -/
abbrev Validator : Type := Val → Bool × String

/-- One `(attribute, message)` entry of a `ValidationError.failed` list. -/
abbrev Failure : Type := String × String

/-- Reading `self.values.current[prop]` as read by the validation loop (an
undeclared property reads as `undefined`). -/
def curValOf (cur : AList) (p : String) : Val :=
  (lookupA cur p).getD Val.undefined

/-- The failure-collection loop of `validate()`: for every attribute with
declared validators, in declaration order, every validator runs on the
attribute's current value, and each failing one appends its
`(attribute, message)` pair.  The `Expected validation function` throw of
the source cannot arise here because validators are functions by type. -/
def runValidations (vs : List (String × List Validator)) (cur : AList) :
    List Failure :=
  vs.flatMap (fun p => p.2.filterMap (fun f =>
    let r := f (curValOf cur p.1)
    if r.1 then none else some (p.1, r.2)))

/-- Method `validate()`: throw a `ValidationError` carrying the collected list
when any failures exist, otherwise return normally. -/
def validate (vs : List (String × List Validator)) (cur : AList) :
    Except (List Failure) Unit :=
  if (runValidations vs cur).length > 0 then
    Except.error (runValidations vs cur)
  else Except.ok ()

/-- The number of failing `(attribute, validator)` pairs, counted
directly over the declarations. -/
def failingCount (vs : List (String × List Validator)) (cur : AList) : Nat :=
  (vs.map (fun p => p.2.countP (fun f => !(f (curValOf cur p.1)).1))).sum

theorem length_filterMap_failures (cur : AList) (p : String)
    (l : List Validator) :
    (l.filterMap (fun f =>
      let r := f (curValOf cur p)
      if r.1 then none else some (p, r.2))).length
      = l.countP (fun f => !(f (curValOf cur p)).1) := by
  induction l with
  | nil => rfl
  | cons f t ih =>
      by_cases h : (f (curValOf cur p)).1
      · simpa [List.filterMap_cons, List.countP_cons, h] using ih
      · simpa [List.filterMap_cons, List.countP_cons, h] using ih

theorem length_runValidations (vs : List (String × List Validator))
    (cur : AList) :
    (runValidations vs cur).length = failingCount vs cur := by
  induction vs with
  | nil => rfl
  | cons p t ih =>
      show ((p.2.filterMap _) ++ runValidations t cur).length = _
      rw [List.length_append, length_filterMap_failures, ih]
      simp [failingCount]

/-- Claim C6: validation never short-circuits — with N failing
`(attribute, validator)` pairs across all attributes (N counted directly
over the declarations), `validate()` raises exactly one error whose
ordered failure list has exactly N entries, and with zero failures it
returns normally. -/
theorem c6_validate_collects_all (vs : List (String × List Validator))
    (cur : AList) :
    (failingCount vs cur = 0 → validate vs cur = Except.ok ())
    ∧ (∀ l, validate vs cur = Except.error l →
        l.length = failingCount vs cur ∧ 0 < failingCount vs cur) := by
  constructor
  · intro h0
    have hlen : (runValidations vs cur).length = 0 := by
      rw [length_runValidations, h0]
    simp [validate, hlen]
  · intro l hl
    by_cases h : (runValidations vs cur).length > 0
    · rw [validate, if_pos h] at hl
      cases hl
      rw [length_runValidations] at h ⊢
      exact ⟨rfl, h⟩
    · rw [validate, if_neg h] at hl
      cases hl

/-- The current values of the two-attribute instance used to witness
validation. -/
def valCur : AList :=
  [("a", Val.vnum 1), ("b", Val.vstr "z")]

/-- Validations with two independently failing validators on different
attributes (and one passing validator in between). -/
def valVs : List (String × List Validator) :=
  [("a", [fun _ => (false, "bad a"), fun _ => (true, "")]),
   ("b", [fun _ => (false, "bad b")])]

/-- Claim C6 witness: two failures across two attributes yield one error
whose list has exactly the two entries, in declaration order. -/
theorem c6_witness :
    validate valVs valCur = Except.error [("a", "bad a"), ("b", "bad b")] ∧
    ([("a", "bad a"), ("b", "bad b")] : List Failure).length
      = failingCount valVs valCur ∧
    0 < failingCount valVs valCur :=
  ⟨rfl, (c6_validate_collects_all valVs valCur).2
    [("a", "bad a"), ("b", "bad b")] rfl⟩

/-! ## Instance construction (`ModelInstance` in `src/model.js`) -/

/-- The default-value ladder of the construction loop: a default factory
(embedded by its produced value) wins, then the `defaultOfType`
constructed value, then a static default, else the initial `null`. -/
def defaultValue (ad : AttrDef) : Val :=
  match ad.dflt with
  | .fn v => v
  | _ =>
    match ad.defaultOfType with
    | some v => v
    | _ =>
      match ad.dflt with
      | .val v => v
      | _ => Val.vnull

/-- Initial `current` value of one attribute: the raw map's value under
the attribute name, else under the column alias (when the alias is
truthy), else the default ladder; a missing raw map uses only defaults. -/
def initValue (raw : Option AList) (name : String) (ad : AttrDef) : Val :=
  match raw with
  | some r =>
      if hasKey r name then (lookupA r name).getD Val.undefined
      else if ad.column ≠ "" ∧ hasKey r ad.column = true then
        (lookupA r ad.column).getD Val.undefined
      else defaultValue ad
  | _ => defaultValue ad

/-- Instance construction: every schema attribute gets a `current` value
in schema order and `original` starts empty.  The optional custom
initializer and the method binding are not modelled (no claim concerns
them). -/
def mkInstance (m : Model) (raw : Option AList) : Values :=
  { current := m.attrs.map (fun p => (p.1, initValue raw p.1 p.2)),
    original := [] }

/-! ## DAO `get` -/

/-- Operation `get` (dao.js:169-182): after executing the SELECT keyed on identity
equality, construct an instance from the single returned row when
`res.rows.length === 1`, otherwise return `null` (modelled as `none`). -/
def dao_get (m : Model) (rows : List AList) : Option Values :=
  if rows.length = 1 then (rows.head?).map (fun r => mkInstance m (some r))
  else none

/-- Claim C3, counterexample: a two-row result makes `get` return `null`,
indistinguishable from the zero-row case — it does not fail with an
error as claimed. -/
theorem c3_counterexample :
    dao_get xModel [[("x", Val.vnum 1)], [("x", Val.vnum 2)]] = none ∧
    dao_get xModel [] = none := by
  constructor <;> rfl

/-- Claim C3 (amended): `get` returns a newly constructed instance when
the connection returns exactly one row, and `null` otherwise — both for
zero rows and for more than one row (no defensive error is raised). -/
theorem c3_get_one_or_null (m : Model) (rows : List AList) :
    (∀ r, rows = [r] → dao_get m rows = some (mkInstance m (some r)))
    ∧ (rows.length ≠ 1 → dao_get m rows = none) := by
  constructor
  · intro r hr
    subst hr
    simp [dao_get]
  · intro h
    simp [dao_get, h]

/-- Claim C3 witness: one row constructs the instance; two rows yield
`null`. -/
theorem c3_witness :
    dao_get xModel [[("x", Val.vnum 1)]] =
      some (mkInstance xModel (some [("x", Val.vnum 1)])) ∧
    dao_get xModel [[("x", Val.vnum 1)], [("x", Val.vnum 2)]] = none :=
  ⟨(c3_get_one_or_null xModel [[("x", Val.vnum 1)]]).1 _ rfl,
   (c3_get_one_or_null xModel
     [[("x", Val.vnum 1)], [("x", Val.vnum 2)]]).2 (by decide)⟩

/-! ## DAO `save` and `update` -/

/-- Run a lifecycle hook list in declared order; each hook acts on the
instance state it is called against. -/
def runHooks (hs : List (Values → Values)) (s : Values) : Values :=
  hs.foldl (fun s h => h s) s

/-- The row-to-instance merge of `save`/`update` (dao.js:61-70 and
120-129): every key of the single returned row is assigned onto the
instance through the proxy `set` trap, under the row's own key. -/
def mergeRow (m : Model) (s : Values) (row : AList) : Values :=
  row.foldl (fun s p => mset m s p.1 p.2) s

/-- The INSERT column/value pairs built by `save` (dao.js:44-55): one
`set(column, $n)` and pushed value per attribute of `obj.attr()`, in
attribute order, skipping the identity attribute exactly when its value
is `undefined` or `null`. -/
def saveCols (m : Model) : AList → List (String × Val)
  | [] => []
  | (n, v) :: rest =>
      if modelId m = some n ∧ (v = Val.undefined ∨ v = Val.vnull) then
        saveCols m rest
      else (columnOf m n, v) :: saveCols m rest

/-- The INSERT statement `save` executes: target table and the ordered
column/value assignments (placeholder numbering follows list order). -/
structure InsStmt : Type where
  table : String
  sets : List (String × Val)
deriving DecidableEq, Repr

/-- Reading `obj.id` as the DAO reads it: the proxy `get` of the literal name
`id`. -/
def idValOf (m : Model) (s : Values) : Val :=
  match mget m s [] "id" with
  | .attrVal v => v
  | _ => Val.undefined

/-- The UPDATE statement `update` executes: target table, the identity
value bound to the `$1` WHERE placeholder, and the ordered dirty
column/value assignments. -/
structure UpdStmt : Type where
  table : String
  idVal : Val
  sets : List (String × Val)
deriving DecidableEq, Repr

/-- The SET pairs of the UPDATE: each dirty attribute's resolved column
with its current value, in dirty-map order. -/
def updSets (m : Model) (dirty : AList) : List (String × Val) :=
  dirty.map (fun p => (columnOf m p.1, p.2))

/-- Operation `save` (dao.js:24-81): `preCreate` hooks in order, `validate` (a
failure propagates unchanged), the INSERT built from the full attribute
map, the merge of the first returned row (if any), `checkpoint`, then
`postCreate` hooks.  The connection is modelled by the row list the
INSERT returns; the result carries the final instance state and the
statements issued. -/
def dao_save (m : Model) (vs : List (String × List Validator))
    (preH postH : List (Values → Values)) (s : Values)
    (resRows : List AList) :
    Except (List Failure) (Values × List InsStmt) :=
  let s1 := runHooks preH s
  match validate vs s1.current with
  | .error e => .error e
  | .ok _ =>
    let stmt : InsStmt := { table := m.table, sets := saveCols m (attrAll s1) }
    let s2 :=
      match resRows with
      | [] => s1
      | r :: _ => mergeRow m s1 r
    .ok (runHooks postH (checkpoint s2), [stmt])

/-- Operation `update` (dao.js:83-141): `preUpdate` hooks, `validate`, then — only
when the dirty map `changed()` is non-empty — an UPDATE keyed on the
identity value setting each dirty column and a merge of the first
returned row; in every non-failing path `checkpoint` runs and then the
`postUpdate` hooks. -/
def dao_update (m : Model) (vs : List (String × List Validator))
    (preH postH : List (Values → Values)) (s : Values)
    (resRows : List AList) :
    Except (List Failure) (Values × List UpdStmt) :=
  let s1 := runHooks preH s
  match validate vs s1.current with
  | .error e => .error e
  | .ok _ =>
    let dirty := changedAll s1
    if dirty.length > 0 then
      let stmt : UpdStmt :=
        { table := m.table, idVal := idValOf m s1, sets := updSets m dirty }
      let s2 :=
        match resRows with
        | [] => s1
        | r :: _ => mergeRow m s1 r
      .ok (runHooks postH (checkpoint s2), [stmt])
    else .ok (runHooks postH (checkpoint s1), [])

/-- Operation `update` of the legacy DAO (src/unnamed/part_001:77-129):
the same hooks / validate / merge / checkpoint sequence, but the UPDATE
is built and executed unconditionally — there is no dirty-set guard, so
an empty `changed()` map still issues a statement, with an empty SET
list. -/
def dao_update_legacy (m : Model) (vs : List (String × List Validator))
    (preH postH : List (Values → Values)) (s : Values)
    (resRows : List AList) :
    Except (List Failure) (Values × List UpdStmt) :=
  let s1 := runHooks preH s
  match validate vs s1.current with
  | .error e => .error e
  | .ok _ =>
    let dirty := changedAll s1
    let stmt : UpdStmt :=
      { table := m.table, idVal := idValOf m s1, sets := updSets m dirty }
    let s2 :=
      match resRows with
      | [] => s1
      | r :: _ => mergeRow m s1 r
    .ok (runHooks postH (checkpoint s2), [stmt])

/-- A schema with identity attribute `k` and a second attribute `a`
stored in column `ca`. -/
def idModel : Model :=
  { attrs := [("k", { column := "k", isId := true }),
              ("a", { column := "ca" })],
    table := "t" }

/-- A current map of `idModel` with identity zero and `a` null. -/
def idCur : AList :=
  [("k", Val.vnum 0), ("a", Val.vnull)]

/-- A freshly checkpointed instance state of `idModel` with identity 1:
its dirty set is empty. -/
def idClean : Values :=
  { current := [("k", Val.vnum 1), ("a", Val.vnull)], original := [] }

/-- Claim C4, counterexample: on the claim's cited legacy source
(src/unnamed/part_001:77-129) an instance with an empty dirty set does
not skip the SQL round trip — the legacy `update` still issues exactly
one UPDATE statement (keyed on the identity value, with an empty SET
list), refuting the claim for that implementation. -/
theorem c4_counterexample :
    changedAll idClean = [] ∧
    dao_update_legacy idModel [] [] [] idClean []
      = Except.ok (checkpoint idClean, [⟨"t", Val.vnum 1, []⟩]) :=
  ⟨rfl, rfl⟩

/-- Claim C4 (amended): when the dirty map computed by `changed()` is
empty (and validation passes), the `update` of `src/dao.js` issues no
SQL statement, yet its final state is exactly the checkpointed state
threaded through every `preUpdate` and `postUpdate` hook in declared
order; the legacy `update` of `src/unnamed/part_001` instead executes
the UPDATE unconditionally, issuing exactly one statement whose SET
list is empty. -/
theorem c4_update_empty_dirty (m : Model)
    (vs : List (String × List Validator))
    (preH postH : List (Values → Values)) (s : Values)
    (resRows : List AList)
    (hval : validate vs (runHooks preH s).current = Except.ok ())
    (hdirty : changedAll (runHooks preH s) = []) :
    dao_update m vs preH postH s resRows =
      Except.ok (runHooks postH (checkpoint (runHooks preH s)), [])
    ∧ (dao_update_legacy m vs preH postH s resRows).map (fun r => r.2) =
      Except.ok [{ table := m.table, idVal := idValOf m (runHooks preH s),
                   sets := [] }] := by
  constructor
  · simp [dao_update, hval, hdirty]
  · simp [dao_update_legacy, hval, hdirty, updSets, Except.map]

/-- Claim C4 witness: a clean instance with a passing validator and one
(identity) hook on each side takes the no-SQL path in `src/dao.js` and
still issues one empty-SET UPDATE in the legacy variant. -/
theorem c4_witness :
    validate [("k", [fun _ => (true, "")])]
      (runHooks [fun s => s] idClean).current = Except.ok () ∧
    changedAll (runHooks [fun s => s] idClean) = [] ∧
    dao_update idModel [("k", [fun _ => (true, "")])]
      [fun s => s] [fun s => s] idClean [] =
      Except.ok (runHooks [fun s => s]
        (checkpoint (runHooks [fun s => s] idClean)), []) ∧
    (dao_update_legacy idModel [("k", [fun _ => (true, "")])]
      [fun s => s] [fun s => s] idClean []).map (fun r => r.2) =
      Except.ok [{ table := idModel.table,
                   idVal := idValOf idModel (runHooks [fun s => s] idClean),
                   sets := [] }] :=
  ⟨rfl, rfl,
   (c4_update_empty_dirty idModel [("k", [fun _ => (true, "")])]
      [fun s => s] [fun s => s] idClean [] rfl rfl).1,
   (c4_update_empty_dirty idModel [("k", [fun _ => (true, "")])]
      [fun s => s] [fun s => s] idClean [] rfl rfl).2⟩

/-! ## Claims C2 and C8 about `save` -/

/-- A schema whose single attribute `a` stores in column `ca`. -/
def aliasModel : Model :=
  { attrs := [("a", { column := "ca" })], table := "t" }

/-- A clean instance of `aliasModel` with `a = null`. -/
def aliasClean : Values :=
  { current := [("a", Val.vnull)], original := [] }

/-- Claim C2, counterexample: `save` on `aliasModel` receiving exactly
one returned row `{ca: "x"}` leaves attribute `a` at `null` — the
returned value keyed by the column alias is never written onto the
attribute, because the merge assigns under the raw column key and the
proxy drops writes to the undeclared name `ca`. -/
theorem c2_counterexample :
    dao_save aliasModel [] [] [] aliasClean [[("ca", Val.vstr "x")]]
      = Except.ok (aliasClean, [⟨"t", [("ca", Val.vnull)]⟩]) ∧
    lookupA aliasClean.current "a" = some Val.vnull :=
  ⟨rfl, rfl⟩

/-- Claim C2 (amended): the row-to-instance merge performs no
column-to-attribute translation — each returned value is assigned under
the row's own column key (subject only to the `id` alias); a key that is
not a declared attribute name after aliasing is silently dropped, while
a key that is a declared attribute name overwrites that attribute. -/
theorem c2_merge_uses_row_keys (m : Model) (s : Values) (c : String)
    (v : Val) :
    (hasKey s.current (aliasId m c) = false → mergeRow m s [(c, v)] = s)
    ∧ (hasKey s.current (aliasId m c) = true →
        lookupA (mergeRow m s [(c, v)]).current (aliasId m c) = some v) := by
  constructor
  · intro h
    show mset m s c v = s
    exact mset_not_current m s c v h
  · intro h
    show lookupA (mset m s c v).current (aliasId m c) = some v
    have hcur : (mset m s c v).current = setA s.current (aliasId m c) v := by
      simp [mset, msetR, h]
    rw [hcur, lookupA_setA, if_pos rfl]

/-- Claim C2 witness: the aliased key `ca` is dropped while the literal
attribute name `a` is written. -/
theorem c2_witness :
    mergeRow aliasModel aliasClean [("ca", Val.vstr "x")] = aliasClean ∧
    lookupA (mergeRow aliasModel aliasClean
      [("a", Val.vstr "y")]).current "a" = some (Val.vstr "y") :=
  ⟨(c2_merge_uses_row_keys aliasModel aliasClean "ca" (Val.vstr "x")).1 rfl,
   (c2_merge_uses_row_keys aliasModel aliasClean "a" (Val.vstr "y")).2 rfl⟩

theorem saveCols_col_mem (m : Model) (l : AList) (c : String) (w : Val)
    (h : (c, w) ∈ saveCols m l) :
    c ∈ l.map (fun p => columnOf m p.1) := by
  induction l with
  | nil => cases h
  | cons p rest ih =>
      obtain ⟨n, v⟩ := p
      rw [List.map_cons]
      by_cases hskip : modelId m = some n ∧ (v = Val.undefined ∨ v = Val.vnull)
      · rw [saveCols, if_pos hskip] at h
        exact List.mem_cons_of_mem _ (ih h)
      · rw [saveCols, if_neg hskip] at h
        rcases List.mem_cons.mp h with heq | hmem
        · exact List.mem_cons.mpr (Or.inl (congrArg Prod.fst heq))
        · exact List.mem_cons_of_mem _ (ih hmem)

/-- Claim C8: in a schema whose resolved column names are pairwise
distinct, the INSERT built by `save` sets the column of an attribute
currently holding `v` iff that attribute is not the identity attribute
with an `undefined`/`null` value — a presence check, so identity values
of zero or the empty string are still included, and non-identity
attributes are always included. -/
theorem c8_insert_identity_presence (m : Model) (cur : AList)
    (hcols : (cur.map (fun p => columnOf m p.1)).Nodup)
    (n : String) (v : Val) (hmem : (n, v) ∈ cur) :
    ((columnOf m n, v) ∈ saveCols m cur)
      ↔ (modelId m = some n → v ≠ Val.undefined ∧ v ≠ Val.vnull) := by
  revert hcols hmem
  induction cur with
  | nil =>
      intro _ hmem
      cases hmem
  | cons p rest ih =>
      intro hcols hmem
      obtain ⟨n₀, v₀⟩ := p
      rw [List.map_cons, List.nodup_cons] at hcols
      obtain ⟨hnotin, hnd⟩ := hcols
      rcases List.mem_cons.mp hmem with heq | hmem'
      · injection heq with h1 h2
        subst h1
        subst h2
        by_cases hskip : modelId m = some n ∧ (v = Val.undefined ∨ v = Val.vnull)
        · rw [saveCols, if_pos hskip]
          constructor
          · intro hin
            exact absurd (saveCols_col_mem m rest _ _ hin) hnotin
          · intro hr
            exfalso
            obtain ⟨hid, hav⟩ := hskip
            rcases hav with h | h
            · exact (hr hid).1 h
            · exact (hr hid).2 h
        · rw [saveCols, if_neg hskip]
          constructor
          · intro _ hid
            constructor
            · intro hv
              exact hskip ⟨hid, Or.inl hv⟩
            · intro hv
              exact hskip ⟨hid, Or.inr hv⟩
          · intro _
            exact List.mem_cons_self _ _
      · by_cases hskip : modelId m = some n₀ ∧ (v₀ = Val.undefined ∨ v₀ = Val.vnull)
        · rw [saveCols, if_pos hskip]
          exact ih hnd hmem'
        · rw [saveCols, if_neg hskip]
          have hne : (columnOf m n, v) ≠ (columnOf m n₀, v₀) := by
            intro hcontra
            have hcc : columnOf m n = columnOf m n₀ :=
              congrArg Prod.fst hcontra
            have hcN : columnOf m n ∈ rest.map (fun p => columnOf m p.1) :=
              List.mem_map_of_mem _ hmem'
            rw [hcc] at hcN
            exact hnotin hcN
          rw [List.mem_cons]
          constructor
          · rintro (h | h)
            · exact absurd h hne
            · exact (ih hnd hmem').mp h
          · intro hr
            exact Or.inr ((ih hnd hmem').mpr hr)

/-- Claim C8 witness: an identity value of zero — falsy but present — is
still included as a set column of the INSERT. -/
theorem c8_witness :
    (columnOf idModel "k", Val.vnum 0) ∈ saveCols idModel idCur :=
  (c8_insert_identity_presence idModel idCur (by decide) "k" (Val.vnum 0)
    (by decide)).mpr (by decide)

/-! ## Transaction manager (`DAO.inTransaction`, dao.js:270-289) -/

/-- Operation `inTransaction(conn, fn, opts)`.  The unit of work is modelled by its
completed outcome together with the SQL statements it issued against the
connection before finishing (or failing); the housekeeping statements
`BEGIN;`/`COMMIT;`/`ROLLBACK;` themselves succeed, as on the source's
non-failing connection path.  The result pairs the outcome delivered to
the caller with the full statement log of the connection. -/
def inTransaction {ε α : Type} (fn : Except ε α × List String)
    (readOnly : Bool) : Except ε α × List String :=
  match fn with
  | (Except.ok a, stmts) =>
      (Except.ok a,
        "BEGIN;" :: (stmts ++ [if readOnly then "ROLLBACK;" else "COMMIT;"]))
  | (Except.error e, stmts) =>
      (Except.error e, "BEGIN;" :: (stmts ++ ["ROLLBACK;"]))

/-- Claim C5: `inTransaction` issues `BEGIN` first; when the unit of work
succeeds it ends the log with `ROLLBACK` if `readOnly` and `COMMIT`
otherwise, returning the unit's result; when the unit of work fails it
ends the log with `ROLLBACK` and re-raises exactly the original failure,
never a substitute. -/
theorem c5_inTransaction_protocol {ε α : Type}
    (fn : Except ε α × List String) (ro : Bool) :
    (inTransaction fn ro).2.head? = some "BEGIN;"
    ∧ (∀ a l, fn = (Except.ok a, l) →
        inTransaction fn ro =
          (Except.ok a,
            "BEGIN;" :: (l ++ [if ro then "ROLLBACK;" else "COMMIT;"])))
    ∧ (∀ e l, fn = (Except.error e, l) →
        inTransaction fn ro =
          (Except.error e, "BEGIN;" :: (l ++ ["ROLLBACK;"]))) := by
  obtain ⟨r, stmts⟩ := fn
  cases r with
  | ok a =>
      refine ⟨rfl, ?_, ?_⟩
      · intro a' l' h
        injection h with h1 h2
        injection h1 with h3
        subst h3
        subst h2
        rfl
      · intro e l' h
        injection h with h1 h2
        injection h1
  | error e =>
      refine ⟨rfl, ?_, ?_⟩
      · intro a' l' h
        injection h with h1 h2
        injection h1
      · intro e' l' h
        injection h with h1 h2
        injection h1 with h3
        subst h3
        subst h2
        rfl

/-- Claim C5 witness: a successful read-only unit of work ends in
`ROLLBACK`, and a failing unit of work re-raises its own error after
`ROLLBACK`. -/
theorem c5_witness :
    inTransaction ((Except.ok (Val.vnum 1) : Except String Val), ["X;"])
      true = (Except.ok (Val.vnum 1), ["BEGIN;", "X;", "ROLLBACK;"]) ∧
    inTransaction ((Except.error "boom" : Except String Val), ["X;"])
      false = (Except.error "boom", ["BEGIN;", "X;", "ROLLBACK;"]) :=
  ⟨(c5_inTransaction_protocol
      ((Except.ok (Val.vnum 1) : Except String Val), ["X;"]) true).2.1
      (Val.vnum 1) ["X;"] rfl,
   (c5_inTransaction_protocol
      ((Except.error "boom" : Except String Val), ["X;"]) false).2.2
      "boom" ["X;"] rfl⟩

/-! ## Streaming `query` (dao.js:219-267) -/

/-- The accumulator of a streaming query: `null`, the single instance of
`uniqueResult` mode, or the array of `collectResults` mode. -/
inductive QRes : Type where
  | nil : QRes
  | one (v : Values) : QRes
  | many (l : List Values) : QRes
deriving DecidableEq, Repr

/-- The mutable state of one streaming query handle; `firstReject`
records the first rejection, because a settled promise ignores every
later settlement. -/
structure QState : Type where
  uniq : Bool
  coll : Bool
  res : QRes
  firstReject : Option String
deriving DecidableEq, Repr

/-- The state right after `query` returns its handle. -/
def qInit : QState :=
  { uniq := false, coll := false, res := .nil, firstReject := none }

/-- Events the handle observes before the stream ends: a delivered row,
or the caller invoking `uniqueResult()` / `collectResults()`. -/
inductive QEv : Type where
  | row (r : AList) : QEv
  | uniqueCall : QEv
  | collectCall : QEv

/-- Rejection `d.reject(e)`: only the first settlement of the deferred counts. -/
def qReject (st : QState) (e : String) : QState :=
  match st.firstReject with
  | some _ => st
  | _ => { st with firstReject := some e }

/-- One step of the handle: `uniqueResult()` flips its switch;
`collectResults()` flips its switch and resets the accumulator to an
empty array; a delivered row constructs a model instance and accumulates
it according to the current mode (the push-on-non-array case is
unreachable because `collectResults()` always initialises the array). -/
def qStep (m : Model) (st : QState) (e : QEv) : QState :=
  match e with
  | .uniqueCall => { st with uniq := true }
  | .collectCall => { st with coll := true, res := .many [] }
  | .row r =>
      let inst := mkInstance m (some r)
      if st.uniq then
        match st.res with
        | .nil => { st with res := .one inst }
        | _ => qReject st "multiple results"
      else if st.coll then
        match st.res with
        | .many l => { st with res := .many (l ++ [inst]) }
        | _ => st
      else st

/-- Run the handle over an event sequence from the initial state. -/
def qRun (m : Model) (evs : List QEv) : QState :=
  evs.foldl (qStep m) qInit

/-- The `end` event: a prior rejection stands; otherwise resolve with the
accumulator when a result mode was selected, and with nothing at all
otherwise. -/
def qResolve (st : QState) : Except String (Option QRes) :=
  match st.firstReject with
  | some e => Except.error e
  | _ => if st.uniq || st.coll then Except.ok (some st.res) else Except.ok none

theorem qRun_rows_before (m : Model) (l : List AList) :
    List.foldl (qStep m) qInit (l.map QEv.row) = qInit := by
  induction l with
  | nil => rfl
  | cons r t ih =>
      show List.foldl (qStep m) (qStep m qInit (QEv.row r))
        (t.map QEv.row) = qInit
      have h : qStep m qInit (QEv.row r) = qInit := rfl
      rw [h]
      exact ih

theorem qRun_rows_collect (m : Model) (l : List AList) (acc : List Values) :
    List.foldl (qStep m)
      { uniq := false, coll := true, res := .many acc, firstReject := none }
      (l.map QEv.row)
      = { uniq := false, coll := true,
          res := .many (acc ++ l.map (fun r => mkInstance m (some r))),
          firstReject := none } := by
  induction l generalizing acc with
  | nil => simp
  | cons r t ih =>
      show List.foldl (qStep m)
        (qStep m ⟨false, true, .many acc, none⟩ (QEv.row r))
        (t.map QEv.row) = _
      have h : qStep m ⟨false, true, QRes.many acc, none⟩ (QEv.row r)
          = ⟨false, true, QRes.many (acc ++ [mkInstance m (some r)]), none⟩ :=
        rfl
      rw [h, ih]
      simp

/-- Claim C10: invoking `collectResults()` after k rows have already
been delivered resets the accumulator to an empty array, so the handle
resolves with exactly the instances of the rows delivered after the
call, and the first k instances are permanently absent from the
result. -/
theorem c10_collect_resets_accumulator (m : Model)
    (rows1 rows2 : List AList) :
    qResolve (qRun m
      (rows1.map QEv.row ++ QEv.collectCall :: rows2.map QEv.row))
      = Except.ok (some (QRes.many
          (rows2.map (fun r => mkInstance m (some r))))) := by
  unfold qRun
  rw [List.foldl_append, qRun_rows_before]
  show qResolve (List.foldl (qStep m) (qStep m qInit QEv.collectCall)
    (rows2.map QEv.row)) = _
  have h : qStep m qInit QEv.collectCall
      = ⟨false, true, QRes.many [], none⟩ := rfl
  rw [h, qRun_rows_collect]
  rfl

end Excalipur
